import Mathlib

/-!
Verification of the HBase native client core (table access client) against
its specification.  The repository ships the demo driver
`core/simple-client.cc`; the Table Client, Scanner, Client and
Configuration components it exercises are modelled from the specification
(section 3, 4 and 6 of the spec), each such definition marked
`Modelled from the spec:`.  Definitions taken from the driver source are
marked with the file and symbol they embed.
-/

namespace HBase

/-- Modelled from the spec: a row key or any other field is an opaque byte
sequence (spec section 3, Row Key). -/
abbrev Bytes := List Nat

/-- Modelled from the spec: byte-lexicographic strict order on byte
sequences (spec section 3: total ordering is byte-lexicographic). -/
def lexLt : Bytes → Bytes → Bool
  | _, [] => false
  | [], _ :: _ => true
  | a :: as, b :: bs => if a < b then true else if a = b then lexLt as bs else false

/-- Modelled from the spec: one (family, qualifier, value) column edit
(spec section 3, Mutation). -/
structure Cell where
  family : Bytes
  qualifier : Bytes
  value : Bytes
  deriving DecidableEq

/-- Modelled from the spec: a Put mutation is a row key plus a list of
column edits, built incrementally (spec section 3, Mutation). -/
structure Put where
  row : Bytes
  cells : List Cell
  deriving DecidableEq

/-- Embeds `Put::AddColumn` as used by `MakePut` in
`core/simple-client.cc`: append one column edit to the builder. -/
def addColumn (p : Put) (f q v : Bytes) : Put :=
  { p with cells := p.cells ++ [⟨f, q, v⟩] }

/-- Modelled from the spec: a Get lookup is a row key (optional column
filters are not used by any claim) (spec section 3, Lookup). -/
structure Get where
  row : Bytes
  deriving DecidableEq

/-- Modelled from the spec: a Scan descriptor is a row-key range
[start, stop) plus a batch-size hint (spec section 3, Scan). -/
structure Scan where
  startRow : Option Bytes
  stopRow : Option Bytes
  caching : Nat
  deriving DecidableEq

/-- Modelled from the spec: the outcome of a Get is either a populated row
or an explicit empty marker, never an absent object (spec section 3,
Result; section 7, user-visible behavior). -/
inductive Result where
  | empty : Result
  | populated : Bytes → List Cell → Result
  deriving DecidableEq

/-- Modelled from the spec: the visible row state of the storage cluster,
as an association list from row key to stored cells; kept sorted by
`putRow` so that scans see byte-lexicographic order (spec section 1). -/
abbrev Store := List (Bytes × List Cell)

/-- Association-list lookup used for the store, the configuration and the
per-slot response tables. -/
def alookup {α β : Type} [DecidableEq α] (k : α) : List (α × β) → Option β
  | [] => none
  | p :: rest => if k = p.1 then some p.2 else alookup k rest

/-- Modelled from the spec: applying a Put to the store replaces the row
content at the key, inserting in byte-lexicographic position (spec
section 8: Get after Put returns exactly the written columns). -/
def putRow (k : Bytes) (cells : List Cell) : Store → Store
  | [] => [(k, cells)]
  | r :: rest =>
    if k = r.1 then (k, cells) :: rest
    else if lexLt k r.1 then (k, cells) :: r :: rest
    else r :: putRow k cells rest

/-- Modelled from the spec: error taxonomy for writes (spec section 7);
`emptyMutation` models the violated constraint that a mutation must name
at least one column edit (spec section 4.1, Put). -/
inductive WriteErr where
  | remoteWrite : WriteErr
  | emptyMutation : WriteErr
  deriving DecidableEq

/-- Modelled from the spec: `Table::Put` — requires at least one column
edit, then performs the write (spec section 4.1). -/
def tablePut (store : Store) (p : Put) : Except WriteErr Store :=
  if p.cells = [] then .error .emptyMutation
  else .ok (putRow p.row p.cells store)

/-- Modelled from the spec: `Table::Get` on a single lookup — returns a
populated Result when the row exists and the empty-row Result otherwise;
the call itself always yields a Result (spec section 4.1, Get). -/
def tableGet (store : Store) (g : Get) : Result :=
  match alookup g.row store with
  | none => .empty
  | some cells => .populated g.row cells

/-- Modelled from the spec: substrate-level errors propagated to the
caller of the operation that triggered them (spec section 7). -/
inductive RpcErr where
  | timeout : RpcErr
  | connection : RpcErr
  | remote : RpcErr
  deriving DecidableEq

/-- Modelled from the spec: batched Get dispatch tags every lookup with
its input slot index before grouping per destination server; `f` computes
the payload delivered back for one slot (spec section 4.1, batched Get). -/
def tagFrom {β : Type} (f : Nat → Get → β) : Nat → List Get → List (Nat × β)
  | _, [] => []
  | i, g :: gs => (i, f i g) :: tagFrom f (i + 1) gs

/-- Modelled from the spec: the multiset of (slot index, Result) responses
a fully successful dispatch of the batch produces (spec section 4.1). -/
def slotResponses (store : Store) (gets : List Get) : List (Nat × Result) :=
  tagFrom (fun _ g => tableGet store g) 0 gets

/-- Modelled from the spec: the outcome of one slot of a batched Get under
a per-slot failure assignment; each slot independently succeeds or fails
(spec section 4.1 and section 7, per-slot semantics). -/
def slotOutcome (store : Store) (fail : Nat → Option RpcErr) (i : Nat) (g : Get) :
    Except RpcErr Result :=
  match fail i with
  | some e => .error e
  | none => .ok (tableGet store g)

/-- Modelled from the spec: the multiset of (slot index, outcome) responses
of a dispatch in which slot `i` fails with `fail i` when that is set
(spec section 7, per-slot failure). -/
def slotOutcomes (store : Store) (fail : Nat → Option RpcErr) (gets : List Get) :
    List (Nat × Except RpcErr Result) :=
  tagFrom (slotOutcome store fail) 0 gets

/-- Modelled from the spec: reassembly of a batched Get — the responses,
delivered in whatever completion order, are placed back into input order
by slot index (spec section 4.1, ordering rule). -/
def assembleMultiGet (n : Nat) (resp : List (Nat × Result)) : List Result :=
  (List.range n).map fun i => (alookup i resp).getD .empty

/-- Modelled from the spec: reassembly of a batched Get with per-slot
outcomes, input order restored by slot index (spec section 4.1 and 7). -/
def assembleOutcomes (n : Nat) (resp : List (Nat × Except RpcErr Result)) :
    List (Except RpcErr Result) :=
  (List.range n).map fun i => (alookup i resp).getD (.ok .empty)

/-- Modelled from the spec: Scanner-side error — operation attempted on a
Scanner after Close (spec section 7, ScannerClosedError). -/
inductive ScanErr where
  | scannerClosed : ScanErr
  deriving DecidableEq

/-- Modelled from the spec: the live iteration state of a Scanner — a
buffer of fetched, not yet consumed rows, the cursor (last yielded key),
and the Exhausted and Closed flags of the state machine (spec
section 4.2). -/
structure ScannerState where
  buffer : Store
  cursor : Option Bytes
  exhausted : Bool
  closed : Bool
  deriving DecidableEq

/-- Modelled from the spec: membership of a key in the scan range
[start, stop) (spec section 3, Scan). -/
def inRange (s : Scan) (k : Bytes) : Bool :=
  (match s.startRow with
   | none => true
   | some a => !lexLt k a) &&
  (match s.stopRow with
   | none => true
   | some b => lexLt k b)

/-- Modelled from the spec: the rows of the store that fall in the scan
range (spec section 4.2). -/
def rangeRows (store : Store) (s : Scan) : Store :=
  store.filter fun r => inRange s r.1

/-- Modelled from the spec: the rows strictly after the cursor — a batch
fetch starts strictly after the current cursor (spec section 4.2,
Next). -/
def afterCursor (c : Option Bytes) (rows : Store) : Store :=
  match c with
  | none => rows
  | some k => rows.filter fun r => lexLt k r.1

/-- Modelled from the spec: `Table::Scan` allocates an open Scanner with
nothing fetched yet (spec section 4.1, Scan; section 4.2, Open state). -/
def openScanner : ScannerState := ⟨[], none, false, false⟩

/-- Modelled from the spec: `Scanner::Next` — fails when closed; pops the
buffer when non-empty, advancing the cursor; returns the end-of-sequence
marker when exhausted; otherwise fetches the next batch (of at most the
batch-size hint) starting strictly after the cursor, transitioning to
Exhausted on an empty batch (spec section 4.2). -/
def scannerNext (store : Store) (s : Scan) (st : ScannerState) :
    Except ScanErr (Option (Bytes × List Cell) × ScannerState) :=
  if st.closed then .error .scannerClosed
  else
    match st.buffer with
    | r :: rest => .ok (some r, { st with buffer := rest, cursor := some r.1 })
    | [] =>
      if st.exhausted then .ok (none, st)
      else
        match (afterCursor st.cursor (rangeRows store s)).take s.caching with
        | [] => .ok (none, { st with exhausted := true })
        | r :: rest => .ok (some r, ⟨rest, some r.1, false, false⟩)

/-- Modelled from the spec: `Scanner::Close` transitions to Closed from
any state and raises no error (spec section 4.2). -/
def closeScanner (st : ScannerState) : ScannerState := { st with closed := true }

/-- Embeds the scan loop of `main` in `core/simple-client.cc` (lines
147-155): repeatedly call `Next` and collect rows until the
end-of-sequence marker; `fuel` bounds the number of iterations. -/
def scanAll (store : Store) (s : Scan) : Nat → ScannerState → List (Bytes × List Cell)
  | 0, _ => []
  | fuel + 1, st =>
    match scannerNext store s st with
    | .error _ => []
    | .ok (none, _) => []
    | .ok (some r, st') => r :: scanAll store s fuel st'

/-- Modelled from the spec: process-wide key/value settings (spec
section 2, Configuration; section 6, configuration surface). -/
abbrev Configuration := List (String × String)

/-- Embeds `Configuration::Set`: record a string option, replacing an
existing binding of the same name. -/
def confSet : Configuration → String → String → Configuration
  | [], k, v => [(k, v)]
  | p :: rest, k, v => if p.1 = k then (k, v) :: rest else p :: confSet rest k v

/-- Embeds `Configuration::SetInt`: record an integer option. -/
def confSetInt (c : Configuration) (k : String) (v : Nat) : Configuration :=
  confSet c k (toString v)

/-- Embeds `Configuration::Get`: look an option up by name. -/
def confGet (c : Configuration) (k : String) : Option String :=
  alookup k c

/-- Embeds the configuration setup of `main` in `core/simple-client.cc`
(lines 79-82): the driver sets `hbase.zookeeper.quorum` to the ZooKeeper
quorum and `hbase.client.cpu.thread.pool.size` to the thread count. -/
def driverConf (zookeeper : String) (threads : Nat) : Configuration :=
  confSetInt (confSet [] "hbase.zookeeper.quorum" zookeeper)
    "hbase.client.cpu.thread.pool.size" threads

/-- Modelled from the spec: the top-level Client handle, constructed from
a snapshot of the configuration (spec section 2 and 4.3). -/
structure ClientHandle where
  conf : Configuration
  closed : Bool
  deriving DecidableEq

/-- Modelled from the spec: `Client` construction takes the configuration
by value, as `Client(*conf)` does in the driver (line 89). -/
def mkClient (conf : Configuration) : ClientHandle := ⟨conf, false⟩

/-- Modelled from the spec: `Client::Close` — releases owned resources;
idempotent, raising no error (spec section 4.3). -/
def clientClose (c : ClientHandle) : ClientHandle := { c with closed := true }

/-- Modelled from the spec: a Table Client bound 1:1 to a table name (spec
section 3, Table Client instance). -/
structure TableClient where
  tableName : Bytes
  closed : Bool
  deriving DecidableEq

/-- Modelled from the spec: `Table::Close` — releases local resources;
idempotent, raising no error (spec section 4.1). -/
def tableClose (t : TableClient) : TableClient := { t with closed := true }

/-- Embeds the byte view of a C++ string, used to translate the string
literals of the driver into byte sequences. -/
def strBytes (s : String) : Bytes := s.data.map Char.toNat

/-- Embeds `MakePut` from `core/simple-client.cc` (lines 60-64): build a
Put on `row` and add the single column (family f, qualifier q, value equal
to the row key). -/
def MakePut (row : String) : Put :=
  addColumn ⟨strBytes row, []⟩ (strBytes "f") (strBytes "q") (strBytes row)

/-- Embeds `Row` from `core/simple-client.cc` (lines 66-69): the row key
is the prefix followed by the decimal rendering of the index. -/
def Row (pre : String) (i : Nat) : String := pre ++ toString i

/-! ### Order lemmas for the byte-lexicographic order -/

lemma lexLt_cons (a b : Nat) (as bs : Bytes) :
    lexLt (a :: as) (b :: bs) = true ↔ a < b ∨ (a = b ∧ lexLt as bs = true) := by
  show (if a < b then true else if a = b then lexLt as bs else false) = true ↔ _
  split_ifs with h1 h2
  · simp [h1]
  · simp [h1, h2]
  · simp [h1, h2]

lemma lexLt_irrefl (k : Bytes) : lexLt k k = false := by
  induction k with
  | nil => rfl
  | cons a as ih =>
    show (if a < a then true else if a = a then lexLt as as else false) = false
    simp [ih]

lemma lexLt_nil_right (a : Bytes) : lexLt a [] = false := by
  cases a <;> rfl

lemma lexLt_trans : ∀ a b c : Bytes, lexLt a b = true → lexLt b c = true → lexLt a c = true
  | _, b, [], _, h2 => by rw [lexLt_nil_right b] at h2; cases h2
  | [], b :: bs, _ :: _, _, _ => rfl
  | [], [], _ :: _, h1, _ => by cases h1
  | _ :: _, [], _, h1, _ => by cases h1
  | a :: as, b :: bs, c :: cs, h1, h2 => by
    rw [lexLt_cons] at h1 h2 ⊢
    rcases h1 with h1 | ⟨rfl, h1⟩
    · rcases h2 with h2 | ⟨rfl, h2⟩
      · exact Or.inl (Nat.lt_trans h1 h2)
      · exact Or.inl h1
    · rcases h2 with h2 | ⟨rfl, h2⟩
      · exact Or.inl h2
      · exact Or.inr ⟨rfl, lexLt_trans as bs cs h1 h2⟩

/-- Strict key order on stored rows. -/
def ltKey (r r' : Bytes × List Cell) : Prop := lexLt r.1 r'.1 = true

instance : DecidableRel ltKey := fun r r' => by
  unfold ltKey; infer_instance

/-! ### Association-list lemmas -/

lemma alookup_eq_some_of_mem {α β : Type} [DecidableEq α] :
    ∀ {l : List (α × β)} {k : α} {v : β},
      (k, v) ∈ l → (l.map Prod.fst).Nodup → alookup k l = some v := by
  intro l
  induction l with
  | nil => intro k v hmem _; cases hmem
  | cons p rest ih =>
    intro k v hmem hnd
    rw [List.map_cons, List.nodup_cons] at hnd
    rcases List.mem_cons.mp hmem with heq | hmem'
    · have h1 : k = p.1 := by rw [← heq]
      have h2 : v = p.2 := by rw [← heq]
      simp [alookup, h1, h2]
    · have hk : k ≠ p.1 := by
        intro h
        exact hnd.1 (h ▸ List.mem_map_of_mem Prod.fst hmem')
      simp [alookup, hk, ih hmem' hnd.2]

lemma alookup_putRow (k : Bytes) (cells : List Cell) :
    ∀ store : Store, alookup k (putRow k cells store) = some cells := by
  intro store
  induction store with
  | nil => simp [putRow, alookup]
  | cons r rest ih =>
    by_cases h1 : k = r.1
    · simp [putRow, h1, alookup]
    · by_cases h2 : lexLt k r.1
      · simp [putRow, h1, h2, alookup]
      · simp [putRow, h1, h2, alookup, ih]

/-! ### Slot-tagging lemmas for the batched Get -/

lemma tagFrom_map_fst {β : Type} (f : Nat → Get → β) :
    ∀ (l : List Get) (base : Nat),
      (tagFrom f base l).map Prod.fst = List.range' base l.length := by
  intro l
  induction l with
  | nil => intro base; rfl
  | cons g gs ih =>
    intro base
    show base :: (tagFrom f (base + 1) gs).map Prod.fst = List.range' base (gs.length + 1)
    rw [ih (base + 1), List.range'_succ]

lemma tagFrom_mem {β : Type} (f : Nat → Get → β) :
    ∀ (l : List Get) (base i : Nat) (h : i < l.length),
      (base + i, f (base + i) (l.get ⟨i, h⟩)) ∈ tagFrom f base l := by
  intro l
  induction l with
  | nil => intro base i h; exact absurd h (Nat.not_lt_zero i)
  | cons g gs ih =>
    intro base i h
    cases i with
    | zero => simp [tagFrom]
    | succ j =>
      have hj : j < gs.length := Nat.lt_of_succ_lt_succ h
      have := ih (base + 1) j hj
      have harith : base + 1 + j = base + (j + 1) := by omega
      rw [harith] at this
      exact List.mem_cons_of_mem _ this

lemma tagFrom_nodup_fst {β : Type} (f : Nat → Get → β) (l : List Get) (base : Nat) :
    ((tagFrom f base l).map Prod.fst).Nodup := by
  rw [tagFrom_map_fst]
  exact List.nodup_range' base l.length

/-! ### Scanner lemmas -/

lemma filter_split {α : Type} (p : α → Bool) :
    ∀ (l : List α) (r : α) (t : List α), l.filter p = r :: t →
      ∃ l₁ l₂, l = l₁ ++ r :: l₂ ∧ (∀ x ∈ l₁, p x = false) ∧ p r = true ∧
        t = l₂.filter p := by
  intro l
  induction l with
  | nil => intro r t h; simp at h
  | cons a l ih =>
    intro r t h
    rw [List.filter_cons] at h
    by_cases hp : p a = true
    · rw [if_pos hp] at h
      obtain ⟨h1, h2⟩ := List.cons.inj h
      exact ⟨[], l, by simp [h1], by simp, h1 ▸ hp, h2.symm⟩
    · rw [if_neg hp] at h
      obtain ⟨l₁, l₂, hl, hfa, hpr, ht⟩ := ih r t h
      refine ⟨a :: l₁, l₂, by rw [List.cons_append, hl], ?_, hpr, ht⟩
      intro x hx
      rcases List.mem_cons.mp hx with rfl | hx'
      · exact Bool.eq_false_iff.mpr hp
      · exact hfa x hx'

lemma afterCursor_advance (rows : Store) (hsort : List.Pairwise ltKey rows)
    (c : Option Bytes) (r : Bytes × List Cell) (t : Store)
    (h : afterCursor c rows = r :: t) :
    afterCursor (some r.1) rows = t := by
  cases c with
  | none =>
    have hrows : rows = r :: t := h
    subst hrows
    show (r :: t).filter (fun x => lexLt r.1 x.1) = t
    rw [List.filter_cons, if_neg (by simp [lexLt_irrefl])]
    refine List.filter_eq_self.mpr ?_
    intro x hx
    exact (List.pairwise_cons.mp hsort).1 x hx
  | some k =>
    have h' : rows.filter (fun x => lexLt k x.1) = r :: t := h
    obtain ⟨l₁, l₂, hl, hl₁, hpr, ht⟩ := filter_split _ rows r t h'
    subst hl
    have hsplit := List.pairwise_append.mp hsort
    have hl₂ : ∀ x ∈ l₂, lexLt r.1 x.1 = true :=
      (List.pairwise_cons.mp hsplit.2.1).1
    have hl₁q : ∀ x ∈ l₁, lexLt r.1 x.1 = false := by
      intro x hx
      by_contra hq
      have hq' : lexLt r.1 x.1 = true := Bool.not_eq_false _ |>.mp hq
      have : lexLt k x.1 = true := lexLt_trans _ _ _ hpr hq'
      rw [hl₁ x hx] at this
      cases this
    show (l₁ ++ r :: l₂).filter (fun x => lexLt r.1 x.1) = t
    rw [List.filter_append, List.filter_cons, if_neg (by simp [lexLt_irrefl])]
    have e₁ : l₁.filter (fun x => lexLt r.1 x.1) = [] := by
      refine List.filter_eq_nil_iff.mpr ?_
      intro x hx
      simp [hl₁q x hx]
    have e₂ : l₂.filter (fun x => lexLt r.1 x.1) = l₂ :=
      List.filter_eq_self.mpr hl₂
    have e₃ : l₂.filter (fun x => lexLt k x.1) = l₂ := by
      refine List.filter_eq_self.mpr ?_
      intro x hx
      exact lexLt_trans _ _ _ hpr (hl₂ x hx)
    rw [e₁, e₂, ht, e₃]
    rfl

lemma scanAll_correct (store : Store) (s : Scan)
    (hsort : List.Pairwise ltKey (rangeRows store s)) (hb : 0 < s.caching) :
    ∀ (fuel : Nat) (st : ScannerState), st.closed = false →
      (∃ rest, st.buffer ++ rest = afterCursor st.cursor (rangeRows store s)) →
      (st.exhausted = true → afterCursor st.cursor (rangeRows store s) = []) →
      (afterCursor st.cursor (rangeRows store s)).length < fuel →
      scanAll store s fuel st = afterCursor st.cursor (rangeRows store s) := by
  intro fuel
  induction fuel with
  | zero => intro st _ _ _ hlen; exact absurd hlen (Nat.not_lt_zero _)
  | succ fuel ih =>
    intro st hc hpre hex hlen
    obtain ⟨rest, hrest⟩ := hpre
    cases hbuf : st.buffer with
    | cons r brest =>
      have hrem : afterCursor st.cursor (rangeRows store s) = r :: (brest ++ rest) := by
        rw [← hrest, hbuf, List.cons_append]
      have hadv := afterCursor_advance _ hsort _ _ _ hrem
      have hexf : st.exhausted = false := by
        cases hexh : st.exhausted
        · rfl
        · rw [hex hexh] at hrem; cases hrem
      have hnext : scannerNext store s st =
          .ok (some r, { st with buffer := brest, cursor := some r.1 }) := by
        rw [scannerNext, if_neg (by rw [hc]; exact Bool.false_ne_true), hbuf]
      have htail := ih { st with buffer := brest, cursor := some r.1 }
        (by simpa using hc)
        ⟨rest, hadv.symm⟩
        (by intro h; rw [show ({ st with buffer := brest, cursor := some r.1 } :
              ScannerState).exhausted = st.exhausted from rfl, hexf] at h; cases h)
        (by
          show (afterCursor (some r.1) (rangeRows store s)).length < fuel
          rw [hadv]
          have h2 : (afterCursor st.cursor (rangeRows store s)).length =
              (brest ++ rest).length + 1 := by rw [hrem]; rfl
          omega)
      show scanAll store s (fuel + 1) st = _
      rw [scanAll, hnext]
      show r :: scanAll store s fuel _ = _
      rw [htail]
      show r :: afterCursor (some r.1) (rangeRows store s) = _
      rw [hadv, hrem]
    | nil =>
      cases hexh : st.exhausted with
      | true =>
        have hempty := hex hexh
        have hnext : scannerNext store s st = .ok (none, st) := by
          rw [scannerNext, if_neg (by rw [hc]; exact Bool.false_ne_true), hbuf]
          simp [hexh]
        rw [scanAll, hnext, hempty]
      | false =>
        cases hrem : afterCursor st.cursor (rangeRows store s) with
        | nil =>
          have hnext : scannerNext store s st =
              .ok (none, { st with exhausted := true }) := by
            rw [scannerNext, if_neg (by rw [hc]; exact Bool.false_ne_true), hbuf]
            simp [hexh, hrem]
          rw [scanAll, hnext]
        | cons r t =>
          obtain ⟨m, hm⟩ : ∃ m, s.caching = m + 1 :=
            ⟨s.caching - 1, by omega⟩
          have hadv := afterCursor_advance _ hsort _ _ _ hrem
          have hnext : scannerNext store s st =
              .ok (some r, ⟨t.take m, some r.1, false, false⟩) := by
            rw [scannerNext, if_neg (by rw [hc]; exact Bool.false_ne_true), hbuf]
            simp only [hexh, hrem, hm, List.take_succ_cons]
            rfl
          have htail := ih ⟨t.take m, some r.1, false, false⟩ rfl
            ⟨t.drop m, by rw [List.take_append_drop]; exact hadv.symm⟩
            (by intro h; cases h)
            (by
              show (afterCursor (some r.1) (rangeRows store s)).length < fuel
              rw [hadv]
              have h2 : (afterCursor st.cursor (rangeRows store s)).length =
                  t.length + 1 := by rw [hrem]; rfl
              omega)
          rw [scanAll, hnext]
          show r :: scanAll store s fuel _ = _
          rw [htail, hadv]

lemma alookup_perm_tagFrom {β : Type} (f : Nat → Get → β) (gets : List Get)
    (resp : List (Nat × β)) (hperm : resp.Perm (tagFrom f 0 gets))
    (i : Nat) (h : i < gets.length) :
    alookup i resp = some (f i (gets.get ⟨i, h⟩)) := by
  have hmem : (i, f i (gets.get ⟨i, h⟩)) ∈ tagFrom f 0 gets := by
    have := tagFrom_mem f gets 0 i h
    simpa using this
  have hmem' : (i, f i (gets.get ⟨i, h⟩)) ∈ resp := hperm.mem_iff.mpr hmem
  have hnd : (resp.map Prod.fst).Nodup :=
    ((hperm.map Prod.fst).nodup_iff).mpr (tagFrom_nodup_fst f gets 0)
  exact alookup_eq_some_of_mem hmem' hnd

/-! ### Concrete data used by the witnesses -/

/-- Demo cell with family f (byte 102) and qualifier q (byte 113). -/
def demoCell (v : Bytes) : Cell := ⟨[102], [113], v⟩

/-- Demo store holding rows 53 and 55. -/
def demoStore : Store := [([53], [demoCell [53]]), ([55], [demoCell [55]])]

/-- Demo batch: lookups for row 53, the missing row 57, and row 55. -/
def demoGets : List Get := [⟨[53]⟩, ⟨[57]⟩, ⟨[55]⟩]

/-- Demo responses for `demoGets`, delivered out of input order. -/
def demoResp : List (Nat × Result) :=
  [(1, .empty), (0, .populated [53] [demoCell [53]]),
   (2, .populated [55] [demoCell [55]])]

/-- Demo per-slot failure assignment: only slot 0 fails. -/
def demoFail : Nat → Option RpcErr := fun i => if i = 0 then some .timeout else none

/-- Demo per-slot outcomes for `demoGets` under `demoFail`, delivered out
of input order. -/
def demoOutcomeResp : List (Nat × Except RpcErr Result) :=
  [(1, .ok .empty), (0, .error .timeout),
   (2, .ok (.populated [55] [demoCell [55]]))]

/-- Demo store holding rows 1, 2 and 3. -/
def demoStore3 : Store :=
  [([1], [demoCell [1]]), ([2], [demoCell [2]]), ([3], [demoCell [3]])]

/-- Demo full-table scan with a batch-size hint of 1. -/
def demoScan : Scan := ⟨none, none, 1⟩

/-- Demo Scanner state in the Exhausted state. -/
def demoExhausted : ScannerState := ⟨[], some [3], true, false⟩

/-! ### Claim theorems -/

/-- C1: for every input list of lookups, however the lookups were grouped
per server and in whatever order the remote calls completed — that is, for
every permutation `resp` of the dispatched slot responses — the batched
Get returns a sequence of the same length as the input whose i-th element
is the Result of the i-th lookup. -/
theorem multiget_preserves_order (store : Store) (gets : List Get)
    (resp : List (Nat × Result)) (hperm : resp.Perm (slotResponses store gets)) :
    (assembleMultiGet gets.length resp).length = gets.length ∧
    assembleMultiGet gets.length resp = gets.map (tableGet store) := by
  have hmain : assembleMultiGet gets.length resp = gets.map (tableGet store) := by
    apply List.ext_getElem
    · simp [assembleMultiGet]
    · intro i h1 h2
      have hi : i < gets.length := by simpa [assembleMultiGet] using h1
      have hl := alookup_perm_tagFrom _ gets resp hperm i hi
      simp [assembleMultiGet, hl]
  exact ⟨by rw [hmain]; simp, hmain⟩

/-- Witness for C1: the batch [row 53, missing row 57, row 55] with
responses delivered out of input order still assembles in input order. -/
theorem multiget_preserves_order_witness :
    demoResp.Perm (slotResponses demoStore demoGets) ∧
    (assembleMultiGet demoGets.length demoResp).length = demoGets.length ∧
    assembleMultiGet demoGets.length demoResp = demoGets.map (tableGet demoStore) := by
  have hperm : demoResp.Perm (slotResponses demoStore demoGets) := by decide
  have h := multiget_preserves_order demoStore demoGets demoResp hperm
  exact ⟨hperm, h.1, h.2⟩

/-- C5: in a batched Get under a per-slot failure assignment, for every
permutation `resp` of the dispatched per-slot outcomes, every result slot
carries exactly the outcome of its own remote call — an error exactly when
its own call failed and its sibling slots are untouched — so a failure is
never aggregated into a batch-wide error that discards successful
slots. -/
theorem multiget_partial_failure (store : Store) (fail : Nat → Option RpcErr)
    (gets : List Get) (resp : List (Nat × Except RpcErr Result))
    (hperm : resp.Perm (slotOutcomes store fail gets)) :
    (assembleOutcomes gets.length resp).length = gets.length ∧
    assembleOutcomes gets.length resp =
      (List.range gets.length).map
        (fun i => slotOutcome store fail i (gets.getD i ⟨[]⟩)) := by
  have hmain : assembleOutcomes gets.length resp =
      (List.range gets.length).map
        (fun i => slotOutcome store fail i (gets.getD i ⟨[]⟩)) := by
    apply List.ext_getElem
    · simp [assembleOutcomes]
    · intro i h1 h2
      have hi : i < gets.length := by simpa [assembleOutcomes] using h1
      have hl := alookup_perm_tagFrom _ gets resp hperm i hi
      simp [assembleOutcomes, hl, List.getElem?_eq_getElem hi]
  exact ⟨by rw [hmain]; simp, hmain⟩

/-- Witness for C5: slot 0 of the demo batch fails with a timeout while
slots 1 and 2 keep their own successful results. -/
theorem multiget_partial_failure_witness :
    demoOutcomeResp.Perm (slotOutcomes demoStore demoFail demoGets) ∧
    (assembleOutcomes demoGets.length demoOutcomeResp).length = demoGets.length ∧
    assembleOutcomes demoGets.length demoOutcomeResp =
      (List.range demoGets.length).map
        (fun i => slotOutcome demoStore demoFail i (demoGets.getD i ⟨[]⟩)) := by
  have hperm : demoOutcomeResp.Perm (slotOutcomes demoStore demoFail demoGets) := by
    have h : slotOutcomes demoStore demoFail demoGets =
        [(0, .error .timeout), (1, .ok .empty),
         (2, .ok (.populated [55] [demoCell [55]]))] := rfl
    rw [h]
    exact List.Perm.swap _ _ _
  have h := multiget_partial_failure demoStore demoFail demoGets demoOutcomeResp hperm
  exact ⟨hperm, h.1, h.2⟩

/-- C2: a Get on row k issued immediately after a successful Put of
`cols` to row k, with no intervening writes, returns a Result populated
with exactly the written columns. -/
theorem get_after_put (store store' : Store) (p : Put)
    (hok : tablePut store p = .ok store') :
    tableGet store' ⟨p.row⟩ = .populated p.row p.cells := by
  unfold tablePut at hok
  by_cases hc : p.cells = []
  · rw [if_pos hc] at hok; cases hok
  · rw [if_neg hc] at hok
    have hst : putRow p.row p.cells store = store' := Except.ok.inj hok
    subst hst
    simp [tableGet, alookup_putRow]

/-- Witness for C2: putting the driver row row_0 into the empty store and
reading it back yields exactly the written column. -/
theorem get_after_put_witness :
    tablePut [] (MakePut "row_0") =
      .ok (putRow (MakePut "row_0").row (MakePut "row_0").cells []) ∧
    tableGet (putRow (MakePut "row_0").row (MakePut "row_0").cells [])
        ⟨(MakePut "row_0").row⟩ =
      .populated (MakePut "row_0").row (MakePut "row_0").cells :=
  ⟨rfl, get_after_put [] _ (MakePut "row_0") rfl⟩

/-- C4: a Get on a row key with no stored row is a successful call whose
value is the empty-row Result — `tableGet` is total, so the caller always
receives a Result to inspect, never an absent object and never an
error. -/
theorem get_missing_row_empty (store : Store) (k : Bytes)
    (hmiss : alookup k store = none) :
    tableGet store ⟨k⟩ = .empty := by
  simp [tableGet, hmiss]

/-- Witness for C4: a Get on row 9 of the empty store returns the
empty-row Result. -/
theorem get_missing_row_empty_witness :
    alookup ([9] : Bytes) ([] : Store) = none ∧
    tableGet ([] : Store) ⟨[9]⟩ = .empty :=
  ⟨rfl, get_missing_row_empty [] [9] rfl⟩

/-- C3: over any sorted store and any scan range, iterating the Scanner
to the end yields exactly the rows of the range — every existing row
exactly once, with no duplicates or gaps across batch boundaries — in
strictly ascending byte-lexicographic key order, for every batch-size
hint of at least one row (in particular hints smaller than the row
count); the strict ascent of the yielded sequence means the cursor only
moves forward and no fetch re-returns a row at or before the last-yielded
key. -/
theorem scan_inorder_complete (store : Store) (s : Scan)
    (hsort : List.Pairwise ltKey store) (hb : 0 < s.caching)
    (fuel : Nat) (hf : (rangeRows store s).length < fuel) :
    scanAll store s fuel openScanner = rangeRows store s ∧
    List.Pairwise ltKey (scanAll store s fuel openScanner) := by
  have hsort' : List.Pairwise ltKey (rangeRows store s) := hsort.filter _
  have hmain : scanAll store s fuel openScanner = rangeRows store s :=
    scanAll_correct store s hsort' hb fuel openScanner rfl
      ⟨rangeRows store s, rfl⟩ (by intro h; cases h) hf
  exact ⟨hmain, by rw [hmain]; exact hsort'⟩

/-- Witness for C3: scanning three rows with a batch-size hint of 1
yields all three rows in ascending order. -/
theorem scan_inorder_complete_witness :
    List.Pairwise ltKey demoStore3 ∧ 0 < demoScan.caching ∧
    (rangeRows demoStore3 demoScan).length < 5 ∧
    (scanAll demoStore3 demoScan 5 openScanner = rangeRows demoStore3 demoScan ∧
      List.Pairwise ltKey (scanAll demoStore3 demoScan 5 openScanner)) := by
  refine ⟨by decide, by decide, by decide, ?_⟩
  exact scan_inorder_complete demoStore3 demoScan (by decide) (by decide) 5 (by decide)

/-- C6: in the Exhausted state (empty buffer, exhausted flag set, not
closed) a further Next returns the end-of-sequence marker again together
with the unchanged state, and raises no error — the terminal read is
idempotent. -/
theorem next_after_exhausted_idempotent (store : Store) (s : Scan)
    (st : ScannerState) (hc : st.closed = false) (he : st.exhausted = true)
    (hbuf : st.buffer = []) :
    scannerNext store s st = .ok (none, st) := by
  rw [scannerNext, if_neg (by rw [hc]; exact Bool.false_ne_true), hbuf]
  simp [he]

/-- Witness for C6: a concrete exhausted Scanner keeps answering the
end-of-sequence marker with its state unchanged. -/
theorem next_after_exhausted_idempotent_witness :
    demoExhausted.closed = false ∧ demoExhausted.exhausted = true ∧
    demoExhausted.buffer = [] ∧
    scannerNext demoStore3 demoScan demoExhausted = .ok (none, demoExhausted) :=
  ⟨rfl, rfl, rfl,
    next_after_exhausted_idempotent demoStore3 demoScan demoExhausted rfl rfl rfl⟩

/-- C7: from whatever state the Scanner was closed, every Next on the
closed Scanner fails with the scanner-closed error and never returns row
data. -/
theorem next_after_close_fails (store : Store) (s : Scan) (st : ScannerState) :
    scannerNext store s (closeScanner st) = .error .scannerClosed := rfl

/-- C8: Close is idempotent on the Table Client, the Client and the
Scanner — closing a second time returns the same closed object, and the
close functions are total so no error is raised — and Scanner Close
reaches the Closed state from any state. -/
theorem close_idempotent (t : TableClient) (c : ClientHandle) (st : ScannerState) :
    tableClose (tableClose t) = tableClose t ∧
    clientClose (clientClose c) = clientClose c ∧
    closeScanner (closeScanner st) = closeScanner st ∧
    (closeScanner st).closed = true :=
  ⟨rfl, rfl, rfl, rfl⟩

/-- C9 counterexample: the configuration the driver hands to the client
binds exactly the option names hbase.zookeeper.quorum and
hbase.client.cpu.thread.pool.size; neither cluster.locator.endpoint nor
client.threadpool.size is among its options, refuting the claimed option
names at the concrete driver configuration (zookeeper localhost:2181,
6 threads — the driver flag defaults). -/
theorem driver_conf_names_counterexample :
    (driverConf "localhost:2181" 6).map Prod.fst =
      ["hbase.zookeeper.quorum", "hbase.client.cpu.thread.pool.size"] ∧
    confGet (driverConf "localhost:2181" 6) "cluster.locator.endpoint" = none ∧
    confGet (driverConf "localhost:2181" 6) "client.threadpool.size" = none :=
  ⟨rfl, rfl, rfl⟩

/-- C9 (amended): the configuration surface is a mapping from option name
to value whose recognized options are hbase.zookeeper.quorum (where to
discover cluster topology) and hbase.client.cpu.thread.pool.size (worker
count for dispatch), and the client is constructed from a by-value
snapshot of the configuration, immutable thereafter. -/
theorem driver_conf_options (zookeeper : String) (threads : Nat) :
    confGet (driverConf zookeeper threads) "hbase.zookeeper.quorum" =
      some zookeeper ∧
    confGet (driverConf zookeeper threads) "hbase.client.cpu.thread.pool.size" =
      some (toString threads) ∧
    (mkClient (driverConf zookeeper threads)).conf = driverConf zookeeper threads :=
  ⟨rfl, rfl, rfl⟩

/-- C10: every Put the driver submits is built by MakePut, which attaches
exactly the one column edit (family f, qualifier q, value equal to the
row key), so the at-least-one-column precondition of Put holds and the
error branch of the write is unreachable for every driver Put. -/
theorem makePut_single_column (row : String) (store : Store) :
    (MakePut row).cells = [⟨strBytes "f", strBytes "q", strBytes row⟩] ∧
    (MakePut row).cells ≠ [] ∧
    tablePut store (MakePut row) =
      .ok (putRow (strBytes row) (MakePut row).cells store) :=
  ⟨rfl, by simp [MakePut, addColumn], rfl⟩

end HBase
